import Mathlib

/-!
Verification development for the ASMD annotation-curation code
(`src/asmd/dataset_utils.py`, `src/asmd/utils.py`, `src/convert_gt.py`).

Modelling conventions:
* Python floats are modelled as exact rationals (`ℚ`); every concrete input
  used below is dyadic, so float and rational arithmetic agree on it.
* Python runtime errors (`KeyError`, `IndexError`, `ValueError`,
  `AssertionError`) are modelled as `Except String` / `Option` error values.
* A `numpy` array built from ragged rows does not form the documented
  rectangular matrix (modern numpy raises "inhomogeneous shape"); we model
  that outcome as `none`.
* Python `dict` objects with string keys are modelled as association lists
  in insertion order; assignment to an existing key replaces in place,
  assignment to a fresh key appends (Python 3.7+ dict semantics).
* `Dataset.get_gts` and `Dataset.get_score_duration` are methods of the
  `Dataset` class, which is not part of `src/`; where needed they are
  modelled from the spec (see the doc comments on `get_score_duration`).
* `np.argsort` (default `kind='quicksort'`, an introsort) guarantees only
  that the rows are permuted into non-decreasing key order; its tie order is
  implementation-defined and in particular not stable.  The final sort of
  `get_score_mat` is modelled with a stable insertion sort; no theorem in
  this file relies on the tie order of that sort.
-/

/-! ### Python numeric primitives -/

/-- Python `int(x)` on a float: truncation toward zero. -/
def pyInt (q : ℚ) : ℤ := if 0 ≤ q then ⌊q⌋ else ⌈q⌉

/-- Python `round(x)` on a float: round half to even (banker's rounding). -/
def pyRound (q : ℚ) : ℤ :=
  let f : ℤ := ⌊q⌋
  let r : ℚ := q - f
  if r < 1/2 then f
  else if 1/2 < r then f + 1
  else if f % 2 = 0 then f else f + 1

/-- Normalization of a (possibly negative) Python slice bound against a
list of length `n`: negative indices count from the end, and the result is
clamped to `[0, n]`. -/
def sliceBound (n : ℕ) (i : ℤ) : ℕ :=
  if 0 ≤ i then min i.toNat n else (i + n).toNat

/-! ### Ground-truth data model (spec §3)

A `GroundTruth` record holds, per source, the four alignment variants and
the three pedal event lists.  `dataset_utils.py` accesses these through
fixed string keys; `alignmentOf` reproduces the `gt[score_type]` lookup
(`none` models the `KeyError` raised for an unknown kind). -/

structure AlignRec where
  pitches : List ℚ
  onsets : List ℚ
  offsets : List ℚ
  velocities : List ℚ

structure PedalCC where
  times : List ℚ
  values : List ℚ

structure GroundTruth where
  instrument : ℚ
  precise_alignment : AlignRec
  broad_alignment : AlignRec
  misaligned : AlignRec
  score : AlignRec
  sustain : PedalCC
  sostenuto : PedalCC
  soft : PedalCC

/-- `gt[score_type]`: look an alignment variant up by its key. -/
def alignmentOf (g : GroundTruth) (k : String) : Option AlignRec :=
  if k = "precise_alignment" then some g.precise_alignment
  else if k = "broad_alignment" then some g.broad_alignment
  else if k = "misaligned" then some g.misaligned
  else if k = "score" then some g.score
  else none

/-! ### `chose_score_type` (dataset_utils.py lines 8-42) -/

/-- Embedding of `chose_score_type(score_type, gts)`.  `score_type[0]` on an
empty list and `gts[0]` on an empty ground-truth list raise `IndexError`,
modelled as `Except.error`. -/
def chose_score_type (score_type : List String) (gts : List GroundTruth) :
    Except String String :=
  if 1 < score_type.length then
    match gts with
    | [] => .error "IndexError"
    | g :: _ =>
      if score_type.contains "precise_alignment" &&
          !g.precise_alignment.pitches.isEmpty then
        .ok "precise_alignment"
      else if score_type.contains "broad_alignment" &&
          !g.broad_alignment.pitches.isEmpty then
        .ok "broad_alignment"
      else if score_type.contains "misaligned" &&
          !g.misaligned.pitches.isEmpty then
        .ok "misaligned"
      else
        .ok "score"
  else
    match score_type with
    | [] => .error "IndexError"
    | k :: _ => .ok k

/-- The claim's description of the multi-entry selection rule, written from
the spec's words: the first of the fixed priority list
`precise_alignment > broad_alignment > misaligned` that is both requested
and has a non-empty pitch list in the first ground-truth record; `score`
when none qualifies. -/
def specChoice (requested : List String) (g : GroundTruth) : String :=
  (["precise_alignment", "broad_alignment", "misaligned"].find?
    (fun k => requested.contains k &&
      ((alignmentOf g k).map (fun a => !a.pitches.isEmpty)).getD false)).getD
    "score"

/-! ### `get_score_mat` (dataset_utils.py lines 209-282)

`dataset.get_gts(idx)` (a `Dataset` method outside `src/`) returns the
selected song's list of per-source ground truths; the embedding therefore
takes that list directly.  `buildScoreCols` reproduces lines 238-271 for one
ground truth: the six per-source columns
`[pitches, ons, offs, vel, instr, num]`.  Note that `missing` is computed
once (line 244) and reused verbatim in the `offs`/`vel` paddings of lines
252 and 256, and that `[-255] * missing` is the empty list when `missing`
is negative. -/

def buildScoreCols (g : GroundTruth) (k : String) (i : ℕ) :
    Option (List (List ℚ)) :=
  (alignmentOf g k).map (fun a =>
    let pitches := a.pitches
    let ons := if a.onsets.length = 0 then
        List.replicate pitches.length (-255 : ℚ)
      else a.onsets
    let missing : ℤ := (pitches.length : ℤ) - ons.length
    let pitches := if missing < 0 then
        pitches ++ List.replicate (-missing).toNat (-255) else pitches
    let ons := if 0 < missing then
        ons ++ List.replicate missing.toNat (-255) else ons
    let offs := a.offsets ++ List.replicate missing.toNat (-255)
    let offs := if offs.length = 0 then
        List.replicate ons.length (-255 : ℚ) else offs
    let vel := a.velocities ++ List.replicate missing.toNat (-255)
    let vel := if vel.length = 0 then
        List.replicate ons.length (-255 : ℚ) else vel
    let missing2 : ℤ := (pitches.length : ℤ) - vel.length
    let pitches := if missing2 < 0 then
        pitches ++ List.replicate (-missing2).toNat (-255) else pitches
    let ons := if missing2 < 0 then
        ons ++ List.replicate (-missing2).toNat (-255) else ons
    let offs := if missing2 < 0 then
        offs ++ List.replicate (-missing2).toNat (-255) else offs
    let vel := if 0 < missing2 then
        vel ++ List.replicate missing2.toNat (-255) else vel
    let num := List.replicate ons.length (i : ℚ)
    let instr := List.replicate ons.length g.instrument
    [pitches, ons, offs, vel, instr, num])

/-- The six concatenated columns over all sources
(`np.concatenate(mat, axis=1)`); `none` models the `KeyError` of an unknown
score type and the `IndexError` of `mat[0]` on an empty ground-truth list. -/
def scoreCols (gts : List GroundTruth) (score_type : List String) :
    Option (List (List ℚ)) :=
  match chose_score_type score_type gts with
  | .error _ => none
  | .ok k =>
    match (List.range gts.length).mapM
        (fun i => gts[i]?.bind (fun g => buildScoreCols g k i)) with
    | none => none
    | some [] => none
    | some (m :: ms) =>
      some (ms.foldl (fun acc m2 => List.zipWith (fun c d => c ++ d) acc m2) m)

/-- Stable insertion of a row into a list sorted by the onset column
(index 1): the new row goes after every row with onset `≤` its own. -/
def insertByOnset (row : List ℚ) : List (List ℚ) → List (List ℚ)
  | [] => [row]
  | r :: rs =>
    if r.getD 1 0 ≤ row.getD 1 0 then r :: insertByOnset row rs
    else row :: r :: rs

/-- Embedding of `get_score_mat`: build the columns, require them
rectangular (otherwise `np.array` cannot form the documented `n × 6`
matrix: `none`), transpose to one row per note, and sort by the onset
column.  See the header note on the modelling of `np.argsort`. -/
def get_score_mat (gts : List GroundTruth) (score_type : List String) :
    Option (List (List ℚ)) :=
  match scoreCols gts score_type with
  | none => none
  | some cols =>
    match cols with
    | [] => none
    | c0 :: crest =>
      if crest.all (fun c => c.length == c0.length) then
        let rows := (List.range c0.length).map
          (fun j => cols.map (fun c => c.getD j 0))
        some (rows.foldl (fun acc r => insertByOnset r acc) [])
      else none

/-- The lengths of the six columns, used to exhibit ragged outcomes. -/
def scoreColLengths (gts : List GroundTruth) (score_type : List String) :
    Option (List ℕ) :=
  (scoreCols gts score_type).map (fun cols => cols.map List.length)

/-! ### `get_pedaling_mat` (dataset_utils.py lines 285-397) and
`utils.nframes` / `utils.time2frame` (utils.py lines 8-39) -/

/-- `utils.nframes(dur, hop, winlen) = (dur - win_len) / hop_size + 1`. -/
def nframes (dur hop winlen : ℚ) : ℚ := (dur - winlen) / hop + 1

/-- `utils.time2frame(time, hop, winlen) = round((time - win_len/2)/hop)`. -/
def time2frame (time hop winlen : ℚ) : ℤ := pyRound ((time - winlen / 2) / hop)

/-- The per-source control-change event rows `(time, sustain, sostenuto,
soft)` built on lines 325-339: one row per event, `-1` in the two columns
the event does not affect.  `zip` truncates to the shorter of
`times`/`values`, as Python's does. -/
def pedalEvents (g : GroundTruth) : List (List ℚ) :=
  (g.sustain.times.zip g.sustain.values).map (fun tv => [tv.1, tv.2, -1, -1])
    ++ (g.sostenuto.times.zip g.sostenuto.values).map
      (fun tv => [tv.1, -1, tv.2, -1])
    ++ (g.soft.times.zip g.soft.values).map (fun tv => [tv.1, -1, -1, tv.2])

/-- Stable insertion by the time column (index 0), modelling the stable
Python `list.sort(key=lambda row: row[0])` of line 341. -/
def insertByTime (row : List ℚ) : List (List ℚ) → List (List ℚ)
  | [] => [row]
  | r :: rs =>
    if r.getD 0 0 ≤ row.getD 0 0 then r :: insertByTime row rs
    else row :: r :: rs

def sortByTime (rows : List (List ℚ)) : List (List ℚ) :=
  rows.foldl (fun acc r => insertByTime r acc) []

/-- `np.argmax(cc[1:]) + 1`: index (1-based within the row) of the first
maximum among the three pedal values. -/
def argmaxType (a b c : ℚ) : ℕ :=
  if b ≤ a ∧ c ≤ a then 1 else if c ≤ b then 2 else 3

/-- Python slice assignment `col[a:b] = v` on a column of length `n`,
with Python's normalization of the integer bounds. -/
def fillSlice (col : List ℚ) (a b : ℤ) (v : ℚ) : List ℚ :=
  let lo := sliceBound col.length a
  let hi := sliceBound col.length b
  (List.range col.length).map
    (fun j => if lo ≤ j ∧ j < hi then v else col.getD j 0)

/-- Zero-order-hold state: per pedal column, the frame of the last control
change (`ℤ`, as `time2frame` may be negative) and its held value. -/
structure HoldState where
  c1 : List ℚ
  c2 : List ℚ
  c3 : List ℚ
  t1 : ℤ
  v1 : ℚ
  t2 : ℤ
  v2 : ℚ
  t3 : ℤ
  v3 : ℚ

/-- One iteration of the control-change loop (lines 376-387). -/
def pedalStep (hop winlen : ℚ) (st : HoldState) (cc : List ℚ) : HoldState :=
  let t := cc.getD 0 0
  let frame_idx := time2frame t hop winlen
  let ty := argmaxType (cc.getD 1 0) (cc.getD 2 0) (cc.getD 3 0)
  if ty = 1 then
    { st with c1 := fillSlice st.c1 st.t1 frame_idx st.v1,
              t1 := frame_idx, v1 := cc.getD 1 0 }
  else if ty = 2 then
    { st with c2 := fillSlice st.c2 st.t2 frame_idx st.v2,
              t2 := frame_idx, v2 := cc.getD 2 0 }
  else
    { st with c3 := fillSlice st.c3 st.t3 frame_idx st.v3,
              t3 := frame_idx, v3 := cc.getD 3 0 }

/-- Frame-based pedal materialization for one ground truth (lines 347-396):
`n_frames = int(nframes(dur, hop, winlen)) + 1` frames, frame `i`
timestamped `i*hop + winlen/2`, three zero-initialized pedal columns filled
by zero-order hold over the time-sorted event stream, with a final
fill from each column's last change frame to the end (only when the event
stream is non-empty). -/
def pedalFrames (g : GroundTruth) (dur hop winlen : ℚ) : List (List ℚ) :=
  let events := sortByTime (pedalEvents g)
  let n : ℕ := (pyInt (nframes dur hop winlen) + 1).toNat
  let times := (List.range n).map (fun i => (i : ℚ) * hop + winlen / 2)
  let zero : List ℚ := List.replicate n 0
  let st0 : HoldState := ⟨zero, zero, zero, 0, 0, 0, 0, 0, 0⟩
  let st := events.foldl (pedalStep hop winlen) st0
  let st :=
    if events.isEmpty then st
    else
      { st with
        c1 := fillSlice st.c1 st.t1 (n : ℤ) st.v1,
        c2 := fillSlice st.c2 st.t2 (n : ℤ) st.v2,
        c3 := fillSlice st.c3 st.t3 (n : ℤ) st.v3 }
  (List.range n).map (fun i =>
    [times.getD i 0, st.c1.getD i 0, st.c2.getD i 0, st.c3.getD i 0])

/-- Modelled from the spec: `dataset.get_score_duration(idx)` belongs to
the `Dataset` class, which is not under `src/`.  The spec says the frame
count uses the "duration from the best-aligned score's span"; we model the
duration as the largest offset over all of the song's ground truths in the
best-aligned available kind (priority `precise_alignment >
broad_alignment > misaligned`, falling back to `score`). -/
def get_score_duration (gts : List GroundTruth) : ℚ :=
  match chose_score_type
      ["precise_alignment", "broad_alignment", "misaligned", "score"] gts with
  | .error _ => 0
  | .ok k =>
    gts.foldl (fun m g =>
      match alignmentOf g k with
      | some a => a.offsets.foldl max m
      | none => m) 0

/-- Embedding of `get_pedaling_mat(dataset, idx, frame_based, winlen, hop)`:
one matrix per ground truth of the song; event rows sorted by time when
`frame_based` is false, zero-order-hold frames otherwise. -/
def get_pedaling_mat (gts : List GroundTruth) (frame_based : Bool)
    (winlen hop : ℚ) : List (List (List ℚ)) :=
  gts.map (fun g =>
    if frame_based then pedalFrames g (get_score_duration gts) hop winlen
    else sortByTime (pedalEvents g))

/-! ### `merge` (convert_gt.py lines 184-209)

Partial ground-truth records are JSON-like Python dicts; `PVal` is their
value universe and `PRec` an insertion-ordered dict.  In the loop body

    d1_element = [d1[key]]
    if type(d1_element) is dict:
        d1[key] = merge([d1_element], [d2[key]])[0]
    else:
        d1_element.append(d2[key])
    d1[key] = d1_element

the guard tests the type of `d1_element`, the one-element *list* built on
the previous line, so it is always false and the recursive branch is dead;
moreover the final unconditional assignment `d1[key] = d1_element` would
clobber the recursive branch's result even if it ran.  The net effect for
every key is `d1[key] = [old value, d2[key]]`, which `mergeField` captures
(including the dead guard on the wrapper list). -/

inductive PVal where
  | num : ℚ → PVal
  | str : String → PVal
  | list : List PVal → PVal
  | dict : List (String × PVal) → PVal

/-- A partial ground-truth record: an insertion-ordered Python dict. -/
def PRec : Type := List (String × PVal)

/-- `type(v) is dict`. -/
def PVal.isDictV : PVal → Bool
  | .dict _ => true
  | _ => false

/-- First-match association lookup, `d[key]` returning `none` for a
`KeyError`. -/
def lookupV (d : PRec) (k : String) : Option PVal :=
  match d with
  | [] => none
  | (k2, v) :: rest => if k2 = k then some v else lookupV rest k

/-- The loop body quoted above, for one key: `d1_element = [v1]`; the
`type(d1_element) is dict` guard is always false (it tests the wrapper
list), so the `else` branch appends `v2`; the final assignment stores
`d1_element` either way. -/
def mergeField (v1 v2 : PVal) : PVal :=
  let d1_element := PVal.list [v1]
  if d1_element.isDictV then d1_element else PVal.list [v1, v2]

/-- The `for key in d1.keys()` loop of one inner iteration: every key of
`d1` is rebound to `mergeField` of its value and the corresponding value
in `d2`; a key missing from `d2` raises `KeyError`. -/
def mergeRec (d1 d2 : PRec) : Except String PRec :=
  match d1 with
  | [] => Except.ok []
  | (k, v) :: rest =>
    match lookupV d2 k with
    | none => Except.error "KeyError"
    | some v2 =>
      match mergeRec rest d2 with
      | Except.error e => Except.error e
      | Except.ok r => Except.ok ((k, mergeField v v2) :: r)

/-- The inner `for arg in args[1:]` loop: fold `mergeRec` over the records
at index `i` of the remaining argument lists (`d2 = arg[i]`). -/
def mergeAt (rest : List (List PRec)) (i : ℕ) (d1 : PRec) :
    Except String PRec :=
  match rest with
  | [] => Except.ok d1
  | arg :: more =>
    match arg[i]? with
    | none => Except.error "IndexError"
    | some d2 =>
      match mergeRec d1 d2 with
      | Except.error e => Except.error e
      | Except.ok d1' => mergeAt more i d1'

/-- The outer `for i, d1 in enumerate(obj1_copy)` loop, threading the
running index. -/
def mergeAll (rest : List (List PRec)) : List PRec → ℕ →
    Except String (List PRec)
  | [], _ => Except.ok []
  | d1 :: ds, i =>
    match mergeAt rest i d1 with
    | Except.error e => Except.error e
    | Except.ok d1' =>
      match mergeAll rest ds (i + 1) with
      | Except.error e => Except.error e
      | Except.ok rs => Except.ok (d1' :: rs)

/-- Embedding of `merge(*args)`: the list-type assertion is enforced by the
embedding's types; unequal list lengths fail the second assertion
(`LengthMismatchError` in the spec's vocabulary); a single argument list is
returned as is; otherwise each record of the first list is merged pairwise
with the aligned records of the other lists, outer loop over the
enumerated first list, inner loop over argument lists. -/
def merge (args : List (List PRec)) : Except String (List PRec) :=
  match args with
  | [] => Except.error "IndexError"
  | a0 :: rest =>
    if rest.all (fun x => x.length == a0.length) then
      if rest.isEmpty then Except.ok a0
      else mergeAll rest a0 0
    else Except.error "LengthMismatchError"

/-! ### `filter` (dataset_utils.py lines 45-206)

The corpus object (`Dataset` class, outside `src/`) carries `paths`,
`_chunks` and `datasets`; `filter` rebuilds `paths` from scratch, updates
`_chunks` only for datasets whose flag holds, and never clears `_chunks`.
`copy=True` only affects object identity (a deep clone is filtered instead
of the original); under value semantics the returned corpus is the same
either way, so the embedding drops the flag. -/

/-- The `source` slot of a path row: `[]`, all source paths, or the single
path of the target instrument. -/
inductive SrcField where
  | empty : SrcField
  | allPaths : List String → SrcField
  | onePath : String → SrcField

/-- The ground-truth slot of a path row: the song's whole per-source list,
or the single record of the target instrument. -/
inductive GtField where
  | full : List GroundTruth → GtField
  | one : GroundTruth → GtField

/-- One row `[mix, source, gts]` of `ret.paths`. -/
structure PathRow where
  mix : List String
  src : SrcField
  gts : GtField

structure Song where
  included : Bool
  instruments : List String
  composer : String
  groups : List String
  ground_truth : List GroundTruth
  recording_path : List String
  sources_path : Option (List String)

structure Dset where
  name : String
  included : Bool
  ensemble : Bool
  ground_truth : List (String × ℤ)
  songs : List Song

/-- The corpus (`Dataset` object): path rows, the `_chunks` dict in
insertion order, and the dataset tree. -/
structure Corpus where
  paths : List PathRow
  chunks : List (String × ℕ × ℕ)
  datasets : List Dset

/-- The keyword arguments of `filter`, with their Python defaults. -/
structure FilterArgs where
  instruments : List String := []
  ensemble : Option Bool := none
  mixed : Bool := true
  sources : Bool := false
  all : Bool := false
  composer : String := ""
  datasets : List String := []
  groups : List String := []
  ground_truth : List (String × ℤ) := []

/-- Python dict assignment `m[k] = v`: replace in place when the key is
present, append otherwise. -/
def dictSet (m : List (String × ℕ × ℕ)) (k : String) (v : ℕ × ℕ) :
    List (String × ℕ × ℕ) :=
  if m.any (fun p => p.1 == k) then
    m.map (fun p => if p.1 == k then (k, v) else p)
  else m ++ [(k, v)]

/-- First-match lookup in a dataset's `ground_truth` mapping. -/
def lookupGtKind (m : List (String × ℤ)) (k : String) : Option ℤ :=
  match m with
  | [] => none
  | (k2, v) :: rest => if k2 = k then some v else lookupGtKind rest k

/-- Lines 153-156: the requested ground-truth loop.  Each requested kind
is looked up in the dataset's mapping — a missing kind raises `KeyError`
(the lookup happens before the comparison); a level mismatch clears the
flag and breaks out of the loop. -/
def checkGtLevels (req : List (String × ℤ)) (m : List (String × ℤ)) :
    Except String Bool :=
  match req with
  | [] => Except.ok true
  | (k, v) :: rest =>
    match lookupGtKind m k with
    | none => Except.error "KeyError"
    | some lvl => if lvl ≠ v then Except.ok false else checkGtLevels rest m

/-- Song-level flag (lines 161-178): `included`, exact instrument-list
match, composer substring, and every requested group present. -/
def songPasses (args : FilterArgs) (s : Song) : Bool :=
  s.included
    && (args.instruments.isEmpty || args.instruments == s.instruments)
    && (args.composer == "" || decide (args.composer.data <:+: s.composer.data))
    && (args.groups.all (fun g => s.groups.contains g))

/-- Row construction for an included song (lines 180-198).  With
`sources` and a `sources` key present: `all` mode takes every source path
and the full ground-truth list; otherwise `instruments[0]` (IndexError on
an empty request), its index in the song's instruments (`ValueError` —
the spec's `InstrumentNotFoundError` — when absent), and that source's
path and ground truth (IndexError past the end). -/
def buildRow (args : FilterArgs) (s : Song) : Except String PathRow :=
  let mix := if args.mixed then s.recording_path else []
  match s.sources_path with
  | some ps =>
    if args.sources then
      if args.all then
        Except.ok ⟨mix, SrcField.allPaths ps, GtField.full s.ground_truth⟩
      else
        match args.instruments with
        | [] => Except.error "IndexError"
        | instr :: _ =>
          match s.instruments.findIdx? (fun x => x == instr) with
          | none => Except.error "InstrumentNotFoundError"
          | some idx =>
            match ps[idx]?, s.ground_truth[idx]? with
            | some p, some g =>
              Except.ok ⟨mix, SrcField.onePath p, GtField.one g⟩
            | _, _ => Except.error "IndexError"
    else Except.ok ⟨mix, SrcField.empty, GtField.full s.ground_truth⟩
  | none => Except.ok ⟨mix, SrcField.empty, GtField.full s.ground_truth⟩

/-- The song loop of an included dataset (lines 160-201): threads the
path list and the row cursor `end`, marks failing songs `included=false`,
and leaves passing songs untouched. -/
def processSongs (args : FilterArgs) :
    List Song → List PathRow → ℕ →
      Except String (List Song × List PathRow × ℕ)
  | [], paths, endv => Except.ok ([], paths, endv)
  | s :: rest, paths, endv =>
    if songPasses args s then
      match buildRow args s with
      | Except.error e => Except.error e
      | Except.ok row =>
        (processSongs args rest (paths ++ [row]) (endv + 1)).map
          (fun r => (s :: r.1, r.2))
    else
      (processSongs args rest paths endv).map
        (fun r => ({ s with included := false } :: r.1, r.2))

/-- Dataset-level flag (lines 139-156), except for the ground-truth loop
which can raise and is handled by `checkGtLevels`: `included` overridden
by the name allow-list when one is given, then the ensemble tri-state. -/
def dsetFlag (args : FilterArgs) (d : Dset) : Bool :=
  (if args.datasets.isEmpty then d.included else args.datasets.contains d.name)
    && (match args.ensemble with
        | none => true
        | some b => b == d.ensemble)

/-- The dataset loop (lines 138-204): an included dataset opens its chunk
at the cursor (`_chunks[name] = [end, end]`), filters its songs, then
closes the chunk (`_chunks[name][1] = end`); an excluded dataset is marked
`included=false` and its songs and chunk are left untouched. -/
def processDsets (args : FilterArgs) :
    List Dset → List PathRow → List (String × ℕ × ℕ) → ℕ →
      Except String (List Dset × List PathRow × List (String × ℕ × ℕ) × ℕ)
  | [], paths, chunks, endv => Except.ok ([], paths, chunks, endv)
  | d :: rest, paths, chunks, endv =>
    match checkGtLevels args.ground_truth d.ground_truth with
    | Except.error e => Except.error e
    | Except.ok gtOk =>
      if dsetFlag args d && gtOk then
        let chunks1 := dictSet chunks d.name (endv, endv)
        match processSongs args d.songs paths endv with
        | Except.error e => Except.error e
        | Except.ok (songs2, paths2, endv2) =>
          let chunks2 := dictSet chunks1 d.name (endv, endv2)
          (processDsets args rest paths2 chunks2 endv2).map
            (fun r => ({ d with songs := songs2 } :: r.1, r.2))
      else
        (processDsets args rest paths chunks endv).map
          (fun r => ({ d with included := false } :: r.1, r.2))

/-- Embedding of `filter(dataset, ...)`: the path list is reset and the
cursor starts at 0, but the chunk dict is carried over from the input
corpus (line 135 resets only `ret.paths`). -/
def filterCorpus (c : Corpus) (args : FilterArgs) : Except String Corpus :=
  (processDsets args c.datasets [] c.chunks 0).map
    (fun r => ⟨r.2.1, r.2.2.1, r.1⟩)

/-- Cursor-threaded contiguity check: `chunksEnd c cs = some e` iff the
chunks in `cs`, in insertion order, tile `[c, e)` exactly. -/
def chunksEnd : ℕ → List (String × ℕ × ℕ) → Option ℕ
  | c, [] => some c
  | c, (_, s, e) :: rest =>
    if s = c ∧ s ≤ e then chunksEnd e rest else none

/-- The chunk map partitions `[0, n)`: contiguous, non-overlapping,
gap-free, widths summing to `n`. -/
def chunksPartition (cs : List (String × ℕ × ℕ)) (n : ℕ) : Bool :=
  chunksEnd 0 cs == some n

/-! ### Concrete inputs used by the theorems below -/

def emptyAlign : AlignRec := ⟨[], [], [], []⟩

def emptyPedal : PedalCC := ⟨[], []⟩

/-- The song record of claim C1: pitches `[60,62]`, onsets `[0.0]`,
offsets `[]`, velocities `[80,90,100]` in the (default) `misaligned`
variant. -/
def gtC1 : GroundTruth :=
  { instrument := 0, precise_alignment := emptyAlign,
    broad_alignment := emptyAlign,
    misaligned := ⟨[60, 62], [0], [], [80, 90, 100]⟩,
    score := emptyAlign, sustain := emptyPedal, sostenuto := emptyPedal,
    soft := emptyPedal }

/-- A minimal ragged record: offsets one element shorter than the
equal-length pitches/onsets/velocities. -/
def gtC4 : GroundTruth :=
  { instrument := 0, precise_alignment := emptyAlign,
    broad_alignment := emptyAlign,
    misaligned := ⟨[60, 62], [0, 1], [2], [80, 90]⟩,
    score := emptyAlign, sustain := emptyPedal, sostenuto := emptyPedal,
    soft := emptyPedal }

/-- The song record of claim C9: sustain events at `(t=0, v=0)` and
`(t=1, v=127)`; a precise alignment whose last offset (2 s) fixes the
score duration. -/
def gtC9 : GroundTruth :=
  { instrument := 0, precise_alignment := ⟨[60], [0], [2], [80]⟩,
    broad_alignment := emptyAlign, misaligned := emptyAlign,
    score := emptyAlign, sustain := ⟨[0, 1], [0, 127]⟩,
    sostenuto := emptyPedal, soft := emptyPedal }

/-- A song whose precise alignment has no pitches while the broad one has
three, as in the spec's `choose` example. -/
def gtBroad3 : GroundTruth :=
  { instrument := 0, precise_alignment := ⟨[], [1], [2], [80]⟩,
    broad_alignment := ⟨[60, 62, 64], [0, 1, 2], [1, 2, 3], [80, 81, 82]⟩,
    misaligned := emptyAlign, score := emptyAlign, sustain := emptyPedal,
    sostenuto := emptyPedal, soft := emptyPedal }

/-- A one-key partial record. -/
def recPitch60 : PRec := [("pitches", PVal.num 60)]

/-- A record sharing `recPitch60`'s key, for key-covered merges. -/
def recPitch62 : PRec := [("pitches", PVal.num 62)]

/-- A record with no keys at all. -/
def recNoKeys : PRec := []

/-- A record whose single field is a nested mapping (an alignment
sub-record), as in claim C2. -/
def recNestedA : PRec :=
  [("precise-alignment", PVal.dict [("onsets", PVal.list [PVal.num 1])])]

/-- A second record with the same nested-mapping field. -/
def recNestedB : PRec :=
  [("precise-alignment", PVal.dict [("onsets", PVal.list [PVal.num 2])])]

/-- Key coverage between two single records: every key of `d1` is present
in `d2`. -/
def coversB (d1 d2 : PRec) : Bool :=
  d1.all (fun kv => (lookupV d2 kv.1).isSome)

/-- Per-index key coverage of the argument list `arg` against the first
argument list `a0`: at every common index, every key of `a0`'s record is
present in `arg`'s record. -/
def keysCovered : List PRec → List PRec → Bool
  | [], _ => true
  | _ :: _, [] => true
  | d1 :: t1, d2 :: t2 => coversB d1 d2 && keysCovered t1 t2

/-- A song passing every default filter. -/
def songW : Song :=
  { included := true, instruments := ["piano"], composer := "Bach",
    groups := [], ground_truth := [], recording_path := ["a.wav"],
    sources_path := none }

def dsetA : Dset :=
  { name := "A", included := true, ensemble := false,
    ground_truth := [("precise_alignment", 2)], songs := [songW] }

def dsetB : Dset :=
  { name := "B", included := true, ensemble := false,
    ground_truth := [("precise_alignment", 2)], songs := [songW] }

/-- A fresh two-dataset corpus (empty path list and chunk map). -/
def corpusAB : Corpus := ⟨[], [], [dsetA, dsetB]⟩

/-- A fresh corpus with one dataset and no songs. -/
def corpusFresh : Corpus := ⟨[], [], [⟨"C", true, false, [], []⟩]⟩

/-- The corpus `filter` returns on `corpusFresh` with default arguments:
a zero-width chunk for the empty dataset. -/
def corpusFreshOut : Corpus := ⟨[], [("C", 0, 0)], [⟨"C", true, false, [], []⟩]⟩

/-! ### Helper lemmas -/

/-- Key coverage only depends on the key list of the left record. -/
theorem coversB_eq_keys (d2 : PRec) (d1 : PRec) :
    coversB d1 d2 = (d1.map Prod.fst).all (fun k => (lookupV d2 k).isSome) := by
  induction d1 with
  | nil => rfl
  | cons kv t ih =>
    have h1 : coversB (kv :: t) d2 =
        ((lookupV d2 kv.1).isSome && coversB t d2) := by
      simp [coversB, List.all_cons]
    rw [h1, ih, List.map_cons, List.all_cons]

/-- One inner merge pass succeeds when `d2` covers `d1`'s keys, and it
preserves `d1`'s key list. -/
theorem mergeRec_ok (d1 d2 : PRec) (h : coversB d1 d2 = true) :
    ∃ d', mergeRec d1 d2 = Except.ok d' ∧
      d'.map Prod.fst = d1.map Prod.fst := by
  induction d1 with
  | nil => exact ⟨[], rfl, rfl⟩
  | cons kv rest ih =>
    obtain ⟨k, v⟩ := kv
    rw [coversB, List.all_cons] at h
    obtain ⟨h1, h2⟩ := Bool.and_eq_true_iff.mp h
    obtain ⟨v2, hv2⟩ := Option.isSome_iff_exists.mp h1
    obtain ⟨r, hr, hk⟩ := ih h2
    exact ⟨(k, mergeField v v2) :: r, by simp [mergeRec, hv2, hr], by simp [hk]⟩

/-- The inner argument loop succeeds at index `i` when every remaining
argument list has a covering record there, and it preserves the key list. -/
theorem mergeAt_ok (rest : List (List PRec)) (i : ℕ) (d1 : PRec)
    (h : ∀ arg ∈ rest, ∃ d2, arg[i]? = some d2 ∧ coversB d1 d2 = true) :
    ∃ d', mergeAt rest i d1 = Except.ok d' ∧
      d'.map Prod.fst = d1.map Prod.fst := by
  induction rest generalizing d1 with
  | nil => exact ⟨d1, rfl, rfl⟩
  | cons arg more ih =>
    obtain ⟨d2, hd2, hcov⟩ := h arg (List.mem_cons_self arg more)
    obtain ⟨d1', hd1', hk1⟩ := mergeRec_ok d1 d2 hcov
    have h' : ∀ a ∈ more, ∃ dd, a[i]? = some dd ∧ coversB d1' dd = true := by
      intro a ha
      obtain ⟨dd, hdd, hcc⟩ := h a (List.mem_cons_of_mem arg ha)
      exact ⟨dd, hdd, by rw [coversB_eq_keys, hk1, ← coversB_eq_keys]; exact hcc⟩
    obtain ⟨d'', hd'', hk2⟩ := ih d1' h'
    exact ⟨d'', by simp [mergeAt, hd2, hd1', hd''], by rw [hk2, hk1]⟩

/-- The enumerated outer loop succeeds and keeps the record count. -/
theorem mergeAll_ok (rest : List (List PRec)) (ds : List PRec) (i : ℕ)
    (h : ∀ (j : ℕ) (d1 : PRec), ds[j]? = some d1 →
      ∀ arg ∈ rest, ∃ d2, arg[i + j]? = some d2 ∧ coversB d1 d2 = true) :
    ∃ r, mergeAll rest ds i = Except.ok r ∧ r.length = ds.length := by
  induction ds generalizing i with
  | nil => exact ⟨[], rfl, rfl⟩
  | cons d1 ds' ih =>
    obtain ⟨d1', hd1', _⟩ := mergeAt_ok rest i d1 (by
      intro arg harg
      obtain ⟨d2, hd2, hc⟩ := h 0 d1 (by simp) arg harg
      exact ⟨d2, by simpa using hd2, hc⟩)
    obtain ⟨rs, hrs, hlen⟩ := ih (i + 1) (by
      intro j dd hdd arg harg
      obtain ⟨d2, hd2, hc⟩ := h (j + 1) dd (by simpa using hdd) arg harg
      have e : i + 1 + j = i + (j + 1) := by omega
      have hd2' : arg[i + 1 + j]? = some d2 := by rw [e]; exact hd2
      exact ⟨d2, hd2', hc⟩)
    exact ⟨d1' :: rs, by simp [mergeAll, hd1', hrs], by simp [hlen]⟩

/-- Pointwise reading of `keysCovered`. -/
theorem keysCovered_get (a0 arg : List PRec) (hlen : arg.length = a0.length)
    (hc : keysCovered a0 arg = true) :
    ∀ (j : ℕ) (d1 : PRec), a0[j]? = some d1 →
      ∃ d2, arg[j]? = some d2 ∧ coversB d1 d2 = true := by
  induction a0 generalizing arg with
  | nil => intro j d1 hj; simp at hj
  | cons dh t1 ih =>
    intro j d1 hj
    match arg, hlen with
    | d2h :: t2, hlen =>
      rw [keysCovered] at hc
      obtain ⟨hc1, hc2⟩ := Bool.and_eq_true_iff.mp hc
      match j, hj with
      | 0, hj => exact ⟨d2h, by simp, by simp at hj; rw [← hj]; exact hc1⟩
      | j + 1, hj =>
        obtain ⟨d2, hd2, hc⟩ :=
          ih t2 (by simpa using hlen) hc2 j d1 (by simpa using hj)
        exact ⟨d2, by simpa using hd2, hc⟩

/-- The song loop appends as many path rows as it advances the cursor. -/
theorem processSongs_count (args : FilterArgs) (songs : List Song) :
    ∀ (paths : List PathRow) (endv : ℕ) (ss : List Song)
      (p' : List PathRow) (e' : ℕ),
      processSongs args songs paths endv = Except.ok (ss, p', e') →
      ∃ k, p'.length = paths.length + k ∧ e' = endv + k := by
  induction songs with
  | nil =>
    intro paths endv ss p' e' h
    simp [processSongs] at h
    exact ⟨0, by simp [← h.2.1], by simp [← h.2.2]⟩
  | cons s rest ih =>
    intro paths endv ss p' e' h
    rw [processSongs] at h
    by_cases hp : songPasses args s
    · rw [if_pos hp] at h
      cases hb : buildRow args s with
      | error e => rw [hb] at h; simp [Except.map] at h
      | ok row =>
        rw [hb] at h
        dsimp only at h
        cases hrec : processSongs args rest (paths ++ [row]) (endv + 1) with
        | error e => rw [hrec] at h; simp [Except.map] at h
        | ok r2 =>
          obtain ⟨ss2, p2, e2⟩ := r2
          rw [hrec] at h
          simp [Except.map] at h
          obtain ⟨k, hk1, hk2⟩ := ih (paths ++ [row]) (endv + 1) ss2 p2 e2 hrec
          refine ⟨k + 1, ?_, ?_⟩
          · rw [← h.2.1, hk1]; simp; omega
          · rw [← h.2.2, hk2]; omega
    · rw [if_neg hp] at h
      cases hrec : processSongs args rest paths endv with
      | error e => rw [hrec] at h; simp [Except.map] at h
      | ok r2 =>
        obtain ⟨ss2, p2, e2⟩ := r2
        rw [hrec] at h
        simp [Except.map] at h
        obtain ⟨k, hk1, hk2⟩ := ih paths endv ss2 p2 e2 hrec
        exact ⟨k, by rw [← h.2.1]; exact hk1, by rw [← h.2.2]; exact hk2⟩

/-- Assigning a fresh key appends to the dict. -/
theorem dictSet_fresh (m : List (String × ℕ × ℕ)) (k : String) (v : ℕ × ℕ)
    (h : m.any (fun p => p.1 == k) = false) :
    dictSet m k v = m ++ [(k, v)] := by
  simp only [dictSet, h]
  rfl

/-- Reassigning the key just appended replaces the last entry in place. -/
theorem dictSet_last (m : List (String × ℕ × ℕ)) (k : String) (v w : ℕ × ℕ)
    (h : m.any (fun p => p.1 == k) = false) :
    dictSet (m ++ [(k, v)]) k w = m ++ [(k, w)] := by
  have hany : (m ++ [(k, v)]).any (fun p => p.1 == k) = true := by
    simp [List.any_append]
  rw [dictSet, if_pos hany, List.map_append]
  have hm : m.map (fun p => if p.1 == k then (k, w) else p) = m := by
    have hall : ∀ p ∈ m, (p.1 == k) = false := by
      intro p hp
      by_contra hc
      rw [List.any_eq_false] at h
      exact absurd (by simpa using hc) (by simpa using h p hp)
    calc m.map (fun p => if p.1 == k then (k, w) else p) = m.map id := by
          apply List.map_congr_left
          intro p hp
          rw [hall p hp]
          rfl
      _ = m := List.map_id m
  rw [hm]
  simp

/-- Appending one contiguous chunk extends the tiled range. -/
theorem chunksEnd_append (cs : List (String × ℕ × ℕ)) (nm : String) :
    ∀ (c a b : ℕ), chunksEnd c cs = some a → a ≤ b →
      chunksEnd c (cs ++ [(nm, a, b)]) = some b := by
  induction cs with
  | nil =>
    intro c a b h hab
    simp [chunksEnd] at h
    subst h
    simp [chunksEnd, hab]
  | cons ch rest ih =>
    intro c a b h hab
    obtain ⟨nm2, s2, e2⟩ := ch
    rw [chunksEnd] at h
    by_cases hcond : s2 = c ∧ s2 ≤ e2
    · rw [if_pos hcond] at h
      rw [List.cons_append, chunksEnd, if_pos hcond]
      exact ih e2 a b h hab
    · rw [if_neg hcond] at h
      exact absurd h (by simp)

/-- Invariant of the dataset loop: starting from a chunk dict that tiles
`[0, endv)` with keys disjoint from the remaining (duplicate-free) dataset
names and a cursor equal to the path count, a successful pass returns a
chunk dict tiling `[0, e')` with `e'` equal to the final path count. -/
theorem processDsets_inv (args : FilterArgs) (dsets : List Dset) :
    ∀ (paths : List PathRow) (chunks : List (String × ℕ × ℕ)) (endv : ℕ)
      (ds' : List Dset) (p' : List PathRow) (c' : List (String × ℕ × ℕ))
      (e' : ℕ),
      (∀ d ∈ dsets, chunks.any (fun p => p.1 == d.name) = false) →
      (dsets.map Dset.name).Nodup →
      chunksEnd 0 chunks = some endv →
      endv = paths.length →
      processDsets args dsets paths chunks endv = Except.ok (ds', p', c', e') →
      chunksEnd 0 c' = some e' ∧ e' = p'.length := by
  induction dsets with
  | nil =>
    intro paths chunks endv ds' p' c' e' hfresh hnodup hend hlen h
    simp [processDsets] at h
    rw [← h.2.2.1, ← h.2.2.2, ← h.2.1, hend, hlen]
    exact ⟨rfl, rfl⟩
  | cons d rest ih =>
    intro paths chunks endv ds' p' c' e' hfresh hnodup hend hlen h
    rw [processDsets] at h
    cases hgt : checkGtLevels args.ground_truth d.ground_truth with
    | error e => rw [hgt] at h; simp at h
    | ok gtOk =>
      rw [hgt] at h
      dsimp only at h
      by_cases hflag : (dsetFlag args d && gtOk) = true
      · rw [if_pos hflag] at h
        cases hps : processSongs args d.songs paths endv with
        | error e => rw [hps] at h; simp at h
        | ok r2 =>
          obtain ⟨songs2, paths2, endv2⟩ := r2
          rw [hps] at h
          dsimp only at h
          obtain ⟨k, hk1, hk2⟩ :=
            processSongs_count args d.songs paths endv songs2 paths2 endv2 hps
          have hfr : chunks.any (fun p => p.1 == d.name) = false :=
            hfresh d (List.mem_cons_self d rest)
          have hchunks2 :
              dictSet (dictSet chunks d.name (endv, endv)) d.name
                (endv, endv2) = chunks ++ [(d.name, endv, endv2)] := by
            rw [dictSet_fresh chunks d.name (endv, endv) hfr,
              dictSet_last chunks d.name (endv, endv) (endv, endv2) hfr]
          rw [hchunks2] at h
          cases hrec : processDsets args rest paths2
              (chunks ++ [(d.name, endv, endv2)]) endv2 with
          | error e => rw [hrec] at h; simp [Except.map] at h
          | ok r3 =>
            obtain ⟨ds3, p3, c3, e3⟩ := r3
            rw [hrec] at h
            simp [Except.map] at h
            have hres := ih paths2 (chunks ++ [(d.name, endv, endv2)]) endv2
              ds3 p3 c3 e3 ?_ ?_ ?_ ?_ hrec
            · rw [← h.2.1, ← h.2.2.1, ← h.2.2.2]
              exact hres
            · intro d2 hd2
              rw [List.any_append]
              have ha : chunks.any (fun p => p.1 == d2.name) = false :=
                hfresh d2 (List.mem_cons_of_mem d hd2)
              have hb : d.name ≠ d2.name := by
                have hn := List.nodup_cons.mp hnodup
                intro hcontra
                exact hn.1 (hcontra ▸ List.mem_map_of_mem Dset.name hd2)
              simp [ha, hb]
            · exact (List.nodup_cons.mp hnodup).2
            · exact chunksEnd_append chunks d.name 0 endv endv2 hend (by omega)
            · omega
      · rw [if_neg hflag] at h
        cases hrec : processDsets args rest paths chunks endv with
        | error e => rw [hrec] at h; simp [Except.map] at h
        | ok r3 =>
          obtain ⟨ds3, p3, c3, e3⟩ := r3
          rw [hrec] at h
          simp [Except.map] at h
          have hres := ih paths chunks endv ds3 p3 c3 e3
            (fun d2 hd2 => hfresh d2 (List.mem_cons_of_mem d hd2))
            (List.nodup_cons.mp hnodup).2 hend hlen hrec
          rw [← h.2.1, ← h.2.2.1, ← h.2.2.2]
          exact hres

/-- The requested-levels loop reaches a missing kind — and raises
`KeyError` — exactly when every earlier requested pair is present with a
matching level (so the mismatch `break` does not preempt the lookup) and
the kind of the next pair is absent from the mapping. -/
theorem checkGtLevels_error_of_split (m : List (String × ℤ)) :
    ∀ (pre : List (String × ℤ)) (k : String) (v : ℤ)
      (post : List (String × ℤ)),
      (∀ p ∈ pre, lookupGtKind m p.1 = some p.2) →
      lookupGtKind m k = none →
      checkGtLevels (pre ++ (k, v) :: post) m = Except.error "KeyError" := by
  intro pre
  induction pre with
  | nil =>
    intro k v post hpre hmiss
    simp [checkGtLevels, hmiss]
  | cons p pre' ih =>
    intro k v post hpre hmiss
    obtain ⟨k2, v2⟩ := p
    have hp : lookupGtKind m k2 = some v2 :=
      hpre (k2, v2) (List.mem_cons_self _ _)
    rw [List.cons_append, checkGtLevels, hp]
    dsimp only
    rw [if_neg (by simp)]
    exact ih k v post (fun q hq => hpre q (List.mem_cons_of_mem _ hq)) hmiss

/-- A successful dataset pass implies that every dataset's ground-truth
level check ran without raising: the loop of lines 153-156 executes for
each dataset before the inclusion flag is consulted, so no `KeyError` can
have been swallowed. -/
theorem processDsets_ok_checks (args : FilterArgs) (dsets : List Dset) :
    ∀ (paths : List PathRow) (chunks : List (String × ℕ × ℕ)) (endv : ℕ)
      (r : List Dset × List PathRow × List (String × ℕ × ℕ) × ℕ),
      processDsets args dsets paths chunks endv = Except.ok r →
      ∀ d ∈ dsets,
        ∃ b, checkGtLevels args.ground_truth d.ground_truth =
          Except.ok b := by
  induction dsets with
  | nil =>
    intro paths chunks endv r h d hd
    simp at hd
  | cons d0 rest ih =>
    intro paths chunks endv r h d hd
    rw [processDsets] at h
    cases hgt : checkGtLevels args.ground_truth d0.ground_truth with
    | error e => rw [hgt] at h; simp at h
    | ok b0 =>
      rw [hgt] at h
      dsimp only at h
      rcases List.mem_cons.mp hd with hd0 | hdrest
      · exact ⟨b0, hd0 ▸ hgt⟩
      · by_cases hflag : (dsetFlag args d0 && b0) = true
        · rw [if_pos hflag] at h
          cases hps : processSongs args d0.songs paths endv with
          | error e => rw [hps] at h; simp at h
          | ok r2 =>
            obtain ⟨songs2, paths2, endv2⟩ := r2
            rw [hps] at h
            dsimp only at h
            cases hrec : processDsets args rest paths2
                (dictSet (dictSet chunks d0.name (endv, endv)) d0.name
                  (endv, endv2)) endv2 with
            | error e => rw [hrec] at h; simp [Except.map] at h
            | ok r3 => exact ih paths2 _ endv2 r3 hrec d hdrest
        · rw [if_neg hflag] at h
          cases hrec : processDsets args rest paths chunks endv with
          | error e => rw [hrec] at h; simp [Except.map] at h
          | ok r3 => exact ih paths chunks endv r3 hrec d hdrest

/-! ### Claim theorems -/

/-- Claim C1: the claim expects a 3-row matrix with pitch column
`[60, 62, -255]`, onset column `[0, -255, -255]` and offset column
`[-255, -255, -255]`; the code instead pads `offsets` and `velocities` by
the stale pitches-onsets gap, producing ragged column lengths
`[4, 4, 3, 4, 4, 4]`, from which `np.array` cannot build the documented
`n × 6` matrix (modelled as `none`). -/
theorem get_score_mat_pad_example_ragged :
    scoreColLengths [gtC1] ["misaligned"] = some [4, 4, 3, 4, 4, 4] ∧
    get_score_mat [gtC1] ["misaligned"] = none := by
  constructor <;> rfl

/-- Claim C2: when the field value of both records is a nested mapping,
`merge` is supposed to recurse into it; the dead `type(d1_element) is dict`
guard makes the code wrap the two sub-mappings into a sequence instead. -/
theorem merge_nested_mapping_becomes_sequence :
    merge [[recNestedA], [recNestedB]] =
      Except.ok [[("precise-alignment",
        PVal.list [PVal.dict [("onsets", PVal.list [PVal.num 1])],
          PVal.dict [("onsets", PVal.list [PVal.num 2])]])]] := rfl

/-- Claim C3 (counterexample): requesting the kind `broad_alignment`,
absent from every dataset's ground-truth mapping of `corpusAB`, makes
`filter` raise `KeyError` instead of excluding the dataset fail-closed. -/
theorem filter_unknown_kind_keyerror_example :
    filterCorpus corpusAB { ground_truth := [("broad_alignment", 1)] } =
      Except.error "KeyError" := rfl

/-- Claim C3 (amended): for every corpus and every filter call whose
ground-truth criteria contain a pair whose kind is absent from some
dataset's mapping — with every earlier criteria pair present in that
mapping at a matching level, so the loop's mismatch `break` does not
preempt the lookup — `filter` raises an error and never returns a
filtered corpus (the dataset is not excluded fail-closed); and when that
dataset is the first one, the raised error is precisely `KeyError`. -/
theorem filter_unknown_kind_raises (c : Corpus) (args : FilterArgs)
    (d : Dset) (pre post : List (String × ℤ)) (k : String) (v : ℤ)
    (hd : d ∈ c.datasets)
    (hsplit : args.ground_truth = pre ++ (k, v) :: post)
    (hpre : ∀ p ∈ pre, lookupGtKind d.ground_truth p.1 = some p.2)
    (hmiss : lookupGtKind d.ground_truth k = none) :
    (∃ e, filterCorpus c args = Except.error e) ∧
    ∀ rest, c.datasets = d :: rest →
      filterCorpus c args = Except.error "KeyError" := by
  have herr : checkGtLevels args.ground_truth d.ground_truth =
      Except.error "KeyError" := by
    rw [hsplit]
    exact checkGtLevels_error_of_split d.ground_truth pre k v post hpre hmiss
  constructor
  · cases h : filterCorpus c args with
    | error e => exact ⟨e, rfl⟩
    | ok c' =>
      exfalso
      rw [filterCorpus] at h
      cases hp : processDsets args c.datasets [] c.chunks 0 with
      | error e => rw [hp] at h; simp [Except.map] at h
      | ok r =>
        obtain ⟨b, hb⟩ :=
          processDsets_ok_checks args c.datasets [] c.chunks 0 r hp d hd
        rw [herr] at hb
        simp at hb
  · intro rest hrest
    simp [filterCorpus, hrest, processDsets, herr, Except.map]

/-- Witness for `filter_unknown_kind_raises` at a concrete corpus, with a
two-pair criteria list whose first pair matches and whose second names the
absent kind `broad_alignment`. -/
theorem filter_unknown_kind_raises_witness :
    (∃ e, filterCorpus corpusAB
        { ground_truth := [("precise_alignment", 2), ("broad_alignment", 1)] }
        = Except.error e) ∧
    filterCorpus corpusAB
        { ground_truth := [("precise_alignment", 2), ("broad_alignment", 1)] }
      = Except.error "KeyError" := by
  have h := filter_unknown_kind_raises corpusAB
    { ground_truth := [("precise_alignment", 2), ("broad_alignment", 1)] }
    dsetA [("precise_alignment", 2)] [] "broad_alignment" 1
    (List.mem_cons_self dsetA [dsetB]) rfl (by decide) (by decide)
  exact ⟨h.1, h.2 [dsetB] rfl⟩

/-- Claim C4: the rectangularity invariant fails; with offsets one element
shorter than the equally long pitches/onsets/velocities, the offset column
stays short (lengths `[2, 2, 1, 2, 2, 2]`) and no `n × 6` matrix exists
(modelled as `none`). -/
theorem get_score_mat_short_offsets_ragged :
    scoreColLengths [gtC4] ["misaligned"] = some [2, 2, 1, 2, 2, 2] ∧
    get_score_mat [gtC4] ["misaligned"] = none := by
  constructor <;> rfl

/-- Claim C6 (counterexample): re-filtering an already filtered corpus with
a narrower dataset allow-list leaves dataset `A`'s stale chunk in the map:
the chunks `[0,1)` for `A` and `[0,1)` for `B` overlap and their widths sum
to 2 while the path list has length 1, so they do not partition
`[0, len(paths))`. -/
theorem filter_refilter_chunks_not_partition :
    ((filterCorpus corpusAB {}).bind
        (fun c => filterCorpus c { datasets := ["B"] })).map
      (fun c => (c.chunks, c.paths.length,
        chunksPartition c.chunks c.paths.length)) =
    Except.ok ([("A", 0, 1), ("B", 0, 1)], 1, false) := rfl

/-- Claim C6 (amended): after a `filter` call on a corpus whose chunk map
is empty before the call and whose dataset names are pairwise distinct,
the chunk map partitions `[0, len(paths))`: contiguous, non-overlapping,
gap-free, widths summing to the path-list length. -/
theorem filter_chunks_partition_of_fresh (c : Corpus) (args : FilterArgs)
    (c' : Corpus) (h0 : c.chunks = [])
    (h1 : (c.datasets.map Dset.name).Nodup)
    (h2 : filterCorpus c args = Except.ok c') :
    chunksPartition c'.chunks c'.paths.length = true := by
  rw [filterCorpus] at h2
  cases hp : processDsets args c.datasets [] c.chunks 0 with
  | error e => rw [hp] at h2; simp [Except.map] at h2
  | ok r =>
    obtain ⟨ds', p', c2, e'⟩ := r
    rw [hp] at h2
    simp [Except.map] at h2
    obtain ⟨hend, hlen⟩ := processDsets_inv args c.datasets [] c.chunks 0
      ds' p' c2 e' (by rw [h0]; intro d hd; rfl) h1 (by rw [h0]; rfl) rfl hp
    rw [← h2]
    simp [chunksPartition, hend, hlen]

/-- Witness for `filter_chunks_partition_of_fresh` at a concrete corpus. -/
theorem filter_chunks_partition_of_fresh_witness :
    filterCorpus corpusFresh {} = Except.ok corpusFreshOut ∧
    chunksPartition corpusFreshOut.chunks corpusFreshOut.paths.length =
      true :=
  ⟨rfl, filter_chunks_partition_of_fresh corpusFresh {} corpusFreshOut rfl
    (by decide) rfl⟩

/-- Claim C7 (counterexample): two equal-length argument lists (both of
length 1) whose records do not share keys make `merge` raise `KeyError`,
so equal lengths alone do not guarantee a length-`L` result. -/
theorem merge_equal_lengths_keyerror :
    merge [[recPitch60], [recNoKeys]] = Except.error "KeyError" := rfl

/-- Claim C7 (amended): if all argument lists have the first list's length
and, at every index, the other lists' records cover the first list's keys,
`merge` returns a list of the same length; if any argument list has a
different length than the first, `merge` fails with the length-mismatch
error. -/
theorem merge_length_behavior (a0 : List PRec) (rest : List (List PRec)) :
    ((∀ x ∈ rest, x.length = a0.length) →
        (∀ x ∈ rest, keysCovered a0 x = true) →
        ∃ r, merge (a0 :: rest) = Except.ok r ∧ r.length = a0.length) ∧
      ((∃ x ∈ rest, x.length ≠ a0.length) →
        merge (a0 :: rest) = Except.error "LengthMismatchError") := by
  constructor
  · intro hlen hcov
    have hall : rest.all (fun x => x.length == a0.length) = true :=
      List.all_eq_true.mpr (fun x hx => by simp [hlen x hx])
    rw [merge, if_pos hall]
    by_cases hre : rest.isEmpty
    · rw [if_pos hre]
      exact ⟨a0, rfl, rfl⟩
    · rw [if_neg hre]
      exact mergeAll_ok rest a0 0 (by
        intro j d1 hj arg harg
        obtain ⟨d2, hd2, hc⟩ :=
          keysCovered_get a0 arg (hlen arg harg) (hcov arg harg) j d1 hj
        exact ⟨d2, by simpa using hd2, hc⟩)
  · intro hex
    obtain ⟨x, hx, hne⟩ := hex
    have hall : rest.all (fun x => x.length == a0.length) = false := by
      rw [List.all_eq_false]
      exact ⟨x, hx, by simp [hne]⟩
    rw [merge, if_neg (by simp [hall])]

/-- Witness for `merge_length_behavior`: both halves at concrete inputs. -/
theorem merge_length_behavior_witness :
    (∃ r, merge [[recPitch60], [recPitch62]] = Except.ok r ∧ r.length = 1) ∧
    merge [[recPitch60], []] = Except.error "LengthMismatchError" :=
  ⟨(merge_length_behavior [recPitch60] [[recPitch62]]).1 (by decide)
      (by decide),
    (merge_length_behavior [recPitch60] [[]]).2 (by decide)⟩

/-- Claim C8: a single-entry request is returned unconditionally, with no
availability check; with multiple entries the result is the first of the
fixed priority `precise_alignment > broad_alignment > misaligned` that is
both requested and has a non-empty pitch list in the first ground-truth
record, and `score` — requested or not — when none qualifies
(`specChoice` states that rule in the spec's words). -/
theorem chose_score_type_spec (k : String) (gts : List GroundTruth)
    (req : List String) (g : GroundTruth) (rest : List GroundTruth)
    (h : 1 < req.length) :
    chose_score_type [k] gts = Except.ok k ∧
    chose_score_type req (g :: rest) = Except.ok (specChoice req g) := by
  constructor
  · simp [chose_score_type]
  · simp only [chose_score_type, specChoice, alignmentOf, if_pos h]
    cases hc1 : decide (("precise_alignment" : String) ∈ req) <;>
      cases he1 : g.precise_alignment.pitches.isEmpty <;>
        cases hc2 : decide (("broad_alignment" : String) ∈ req) <;>
          cases he2 : g.broad_alignment.pitches.isEmpty <;>
            cases hc3 : decide (("misaligned" : String) ∈ req) <;>
              cases he3 : g.misaligned.pitches.isEmpty <;>
                simp [hc1, he1, hc2, he2, hc3, he3, List.find?]

/-- Witness for `chose_score_type_spec`: the spec's own example, where the
precise alignment has no pitches and the broad one has three. -/
theorem chose_score_type_spec_witness :
    chose_score_type ["score"] [] = Except.ok "score" ∧
    chose_score_type ["precise_alignment", "broad_alignment"]
        [gtBroad3] =
      Except.ok (specChoice ["precise_alignment", "broad_alignment"]
        gtBroad3) :=
  chose_score_type_spec "score" []
    ["precise_alignment", "broad_alignment"] gtBroad3 [] (by decide)

/-- Claim C9 (counterexample): with `frame_len = 0` and `hop = 0.5` the
frame timestamps are `0, 0.5, 1, 1.5, 2, 2.5` — no frame is timestamped
`0.25` or `0.75`, so the claim's stated frame times are impossible at
`frame_len = 0`. -/
theorem get_pedaling_mat_winlen_zero_frames :
    get_pedaling_mat [gtC9] true 0 (1/2) =
      [[[0, 0, 0, 0], [1/2, 0, 0, 0], [1, 127, 0, 0],
        [3/2, 127, 0, 0], [2, 127, 0, 0], [5/2, 127, 0, 0]]] ∧
    ((get_pedaling_mat [gtC9] true 0 (1/2)).headD []).all
      (fun r => !(r.getD 0 0 == (1/4 : ℚ))) = true := by
  constructor <;> with_unfolding_all decide

/-- Claim C9 (amended): with `frame_len = 0.5` and `hop = 0.5` (so frame
`i` is timestamped `i·hop + frame_len/2`, i.e. `0.25, 0.75, 1.25, …`), the
sustain column of the zero-order-hold frame matrix holds `0` at the frames
timestamped `0.25` and `0.75` and `127` at every frame timestamped
`≥ 1.25`. -/
theorem get_pedaling_mat_winlen_half_zoh :
    get_pedaling_mat [gtC9] true (1/2) (1/2) =
      [[[1/4, 0, 0, 0], [3/4, 0, 0, 0], [5/4, 127, 0, 0],
        [7/4, 127, 0, 0], [9/4, 127, 0, 0]]] := by
  with_unfolding_all decide

/-- Claim C10: `merge` of a single records list returns it unchanged. -/
theorem merge_singleton_identity (xs : List PRec) :
    merge [xs] = Except.ok xs := rfl
